import Mathlib

/-
Verification of the duplicate-safe ingestion and aggregation engine of the
PersonalFinanceApp repository, as a shallow embedding in Lean 4.

Embedded source files:
  src/models/models.py                         (Transaction, Category, MonthlySummary)
  src/repositories/transaction_repository.py   (rank assignment, duplicate check, batch save, edit)
  src/repositories/monthly_summary_repository.py (per-category recomputation)
  src/services/import_service.py               (sign standardization)
  src/services/duplicate_detector.py           (balance conflict resolver)

Modelling conventions:
  - Python ints and list/dict state are Nat / Int / explicit lists.
  - Monetary values that are computed with are Rat (exact); monetary values that
    are only serialized into hash strings are kept as their exact decimal string
    (a Python Decimal prints its literal digits, e.g. "4.50").
  - datetimes are abstract tags (Nat): the code only ever compares them for
    equality.
  - fallible Python code (raising exceptions) returns Except String.
  - md5 is implemented bit-faithfully over Nat bytes (words are Nat mod 2^32);
    digests are lowercase hex strings, truncated exactly as the source truncates.
-/

/-! # MD5 (hashlib.md5(...).hexdigest()), words as Nat mod 2^32 -/

namespace MD5

def M32 : Nat := 4294967296

def w32 (n : Nat) : Nat := n % M32

def wadd (a b : Nat) : Nat := (a + b) % M32

def wnot (a : Nat) : Nat := 4294967295 - w32 a

def rotl (x s : Nat) : Nat := w32 (w32 x <<< s) ||| (w32 x >>> (32 - s))

def auxF (b c d : Nat) : Nat := (b &&& c) ||| (wnot b &&& d)

def auxG (b c d : Nat) : Nat := (d &&& b) ||| (wnot d &&& c)

def auxH (b c d : Nat) : Nat := b ^^^ c ^^^ d

def auxI (b c d : Nat) : Nat := c ^^^ (b ||| wnot d)

/-- Round constants: floor(abs(sin(i+1)) * 2^32) for i = 0..63 (RFC 1321). -/
def K : List Nat := [3614090360, 3905402710, 606105819, 3250441966, 4118548399, 1200080426, 2821735955, 4249261313, 1770035416, 2336552879, 4294925233, 2304563134, 1804603682, 4254626195, 2792965006, 1236535329, 4129170786, 3225465664, 643717713, 3921069994, 3593408605, 38016083, 3634488961, 3889429448, 568446438, 3275163606, 4107603335, 1163531501, 2850285829, 4243563512, 1735328473, 2368359562, 4294588738, 2272392833, 1839030562, 4259657740, 2763975236, 1272893353, 4139469664, 3200236656, 681279174, 3936430074, 3572445317, 76029189, 3654602809, 3873151461, 530742520, 3299628645, 4096336452, 1126891415, 2878612391, 4237533241, 1700485571, 2399980690, 4293915773, 2240044497, 1873313359, 4264355552, 2734768916, 1309151649, 4149444226, 3174756917, 718787259, 3951481745]

/-- Per-round left-rotation amounts (RFC 1321). -/
def S : List Nat := [7, 12, 17, 22, 7, 12, 17, 22, 7, 12, 17, 22, 7, 12, 17, 22, 5, 9, 14, 20, 5, 9, 14, 20, 5, 9, 14, 20, 5, 9, 14, 20, 4, 11, 16, 23, 4, 11, 16, 23, 4, 11, 16, 23, 4, 11, 16, 23, 6, 10, 15, 21, 6, 10, 15, 21, 6, 10, 15, 21, 6, 10, 15, 21]

/-- Byte encoding of a string (str.encode(); every string hashed by the source
is ASCII, where UTF-8 bytes coincide with code points). -/
def toBytes (s : String) : List Nat := s.toList.map (fun c => c.toNat)

def lenBytes (bitLen : Nat) : List Nat := (List.range 8).map (fun i => (bitLen >>> (8 * i)) % 256)

def pad (msg : List Nat) : List Nat :=
  let zeros := (120 - ((msg.length + 1) % 64)) % 64
  msg ++ 128 :: (List.replicate zeros 0 ++ lenBytes (msg.length * 8))

def chunksF : Nat → List Nat → List (List Nat)
  | 0, _ => []
  | _, [] => []
  | fuel + 1, l => l.take 64 :: chunksF fuel (l.drop 64)

/-- Split into 64-byte blocks (the fuel argument only forces structural
termination; l.length steps always suffice since every step drops 64 > 0). -/
def chunks (l : List Nat) : List (List Nat) := chunksF l.length l

def word (blk : List Nat) (j : Nat) : Nat :=
  blk.getD (4 * j) 0 + 256 * blk.getD (4 * j + 1) 0 + 65536 * blk.getD (4 * j + 2) 0 + 16777216 * blk.getD (4 * j + 3) 0

structure St where
  a : Nat
  b : Nat
  c : Nat
  d : Nat

def stepRound (blk : List Nat) (st : St) (i : Nat) : St :=
  let fg : Nat × Nat :=
    if i < 16 then (auxF st.b st.c st.d, i)
    else if i < 32 then (auxG st.b st.c st.d, (5 * i + 1) % 16)
    else if i < 48 then (auxH st.b st.c st.d, (3 * i + 5) % 16)
    else (auxI st.b st.c st.d, (7 * i) % 16)
  let tmp := wadd (wadd (wadd fg.1 st.a) (K.getD i 0)) (word blk fg.2)
  ⟨st.d, wadd st.b (rotl tmp (S.getD i 0)), st.b, st.c⟩

def processBlock (st : St) (blk : List Nat) : St :=
  let e := (List.range 64).foldl (stepRound blk) st
  ⟨wadd st.a e.a, wadd st.b e.b, wadd st.c e.c, wadd st.d e.d⟩

def initSt : St := ⟨1732584193, 4023233417, 2562383102, 271733878⟩

def le4 (x : Nat) : List Nat := [x % 256, x / 256 % 256, x / 65536 % 256, x / 16777216 % 256]

def stBytes (f : St) : List Nat := le4 f.a ++ le4 f.b ++ le4 f.c ++ le4 f.d

def md5bytes (msg : List Nat) : List Nat :=
  stBytes ((chunks (pad msg)).foldl processBlock initSt)

def hexDigit (n : Nat) : Char := if n < 10 then Char.ofNat (48 + n) else Char.ofNat (87 + n)

def byteHex (b : Nat) : List Char := [hexDigit (b / 16), hexDigit (b % 16)]

/-- Lowercase hex digest of a string, as a list of 32 characters. -/
def hexChars (s : String) : List Char :=
  (md5bytes (toBytes s)).foldr (fun b acc => byteHex b ++ acc) []

def md5hex (s : String) : String := String.mk (hexChars s)

/-- hashlib.md5(s.encode()).hexdigest()[:n] -/
def md5hexTrunc (s : String) (n : Nat) : String := String.mk ((hexChars s).take n)

end MD5

/-! # Calendar dates

The source passes Python date objects / parseable date strings around and
formats them with strftime. pandas.to_datetime is an external library; it is
modelled on the two representations the pipeline feeds it: ISO "YYYY-MM-DD"
and US "M/D/YYYY" (with or without zero padding). -/

structure CalDate where
  year : Nat
  month : Nat
  day : Nat
deriving DecidableEq

/-- Zero-pad a number to two digits, as strftime does for %m and %d. -/
def pad2 (n : Nat) : String := if n < 10 then "0" ++ toString n else toString n

/-- strftime %m/%d/%Y -/
def fmtMDY (d : CalDate) : String := pad2 d.month ++ "/" ++ pad2 d.day ++ "/" ++ toString d.year

/-- strftime %Y-%m (the month key of a transaction) -/
def fmtYM (d : CalDate) : String := toString d.year ++ "-" ++ pad2 d.month

/-- strftime %Y-%m-%d / date.isoformat() -/
def isoDate (d : CalDate) : String := toString d.year ++ "-" ++ pad2 d.month ++ "-" ++ pad2 d.day

def mkValidDate (y m d : Nat) : Option CalDate :=
  if 1 ≤ m ∧ m ≤ 12 ∧ 1 ≤ d ∧ d ≤ 31 ∧ 1 ≤ y then some ⟨y, m, d⟩ else none

def splitOnChar (sep : Char) : List Char → List (List Char)
  | [] => [[]]
  | c :: cs =>
    let r := splitOnChar sep cs
    if c == sep then [] :: r
    else
      match r with
      | [] => [[c]]
      | g :: gs => (c :: g) :: gs

def digitVal (c : Char) : Option Nat :=
  if 48 ≤ c.toNat ∧ c.toNat ≤ 57 then some (c.toNat - 48) else none

def digitsToNatAux : Option Nat → List Char → Option Nat
  | acc, [] => acc
  | acc, c :: cs =>
    digitsToNatAux
      (match acc, digitVal c with
       | some a, some d => some (10 * a + d)
       | _, _ => none) cs

/-- Numeric value of a nonempty all-digit character sequence. -/
def digitsToNat (cs : List Char) : Option Nat :=
  if cs.isEmpty then none else digitsToNatAux (some 0) cs

/-- Modelled from the external pandas.to_datetime parser, restricted to the two
calendar representations the repository feeds it: "YYYY-MM-DD" and "M/D/YYYY"
(components with or without zero padding). Returns none where pandas would
raise. -/
def parseDate (s : String) : Option CalDate :=
  match splitOnChar '-' s.toList with
  | [y, m, d] =>
    match digitsToNat y, digitsToNat m, digitsToNat d with
    | some yn, some mn, some dn => mkValidDate yn mn dn
    | _, _, _ => none
  | _ =>
    match splitOnChar '/' s.toList with
    | [m, d, y] =>
      match digitsToNat y, digitsToNat m, digitsToNat d with
      | some yn, some mn, some dn => mkValidDate yn mn dn
      | _, _, _ => none
    | _ => none

/-- Python is dynamically typed: create_base_hash receives either a raw date
string or a date object (models.py checks isinstance(date_str, str)). -/
inductive DateVal where
  | s (v : String)
  | d (v : CalDate)
deriving DecidableEq

/-! # src/models/models.py -/

/-- Transaction dataclass. base_hash = "" models a falsy (None or empty)
base_hash; import metadata is Optional as in the source. import timestamps
are abstract tags (the code only compares them for equality). -/
structure Transaction where
  id : Option Nat
  date : CalDate
  description : String
  amount : String
  category : String
  source : String
  transaction_hash : String
  month_str : String
  import_timestamp : Option Nat
  rank_within_batch : Option Nat
  import_batch_id : Option String
  base_hash : String
deriving DecidableEq

namespace Transaction

/-- Transaction.create_base_hash: standardize the date to MM/dd/YYYY (falling
back to the raw string when parsing fails), interpolate the four fields with
the pipe delimiter, and truncate the md5 hex digest to 12 characters. -/
def create_base_hash (date_str : DateVal) (description amount source : String) : String :=
  let standardized_date :=
    match date_str with
    | .s v =>
      match parseDate v with
      | some d => fmtMDY d
      | none => v
    | .d v => fmtMDY v
  let hash_string := standardized_date ++ "|" ++ description ++ "|" ++ amount ++ "|" ++ source
  MD5.md5hexTrunc hash_string 12

/-- Transaction.create_hash: full hash folding in rank and batch id when both
are provided, else the base hash. -/
def create_hash (date_str : DateVal) (description amount source : String)
    (rank : Option Nat) (import_batch_id : Option String) : String :=
  let base_hash := create_base_hash date_str description amount source
  match rank, import_batch_id with
  | some r, some b =>
    let full_hash_string := base_hash ++ "_rank" ++ toString r ++ "_batch" ++ b
    MD5.md5hexTrunc full_hash_string 16
  | _, _ => base_hash

/-- Transaction.generate_full_hash: sets transaction_hash from instance data
(full hash when rank and batch id are present, else the stored base hash). -/
def generate_full_hash (t : Transaction) : Transaction :=
  match t.rank_within_batch, t.import_batch_id with
  | some r, some b =>
    { t with transaction_hash := create_hash (.d t.date) t.description t.amount t.source (some r) (some b) }
  | _, _ => { t with transaction_hash := t.base_hash }

end Transaction

/-- Category dataclass (keywords/budget omitted: the embedded code only reads
the name-derived flags). -/
structure Category where
  name : String
deriving DecidableEq

namespace Category

def is_investment (c : Category) : Bool :=
  c.name == "Acorns" || c.name == "Wealthfront" || c.name == "Robinhood" || c.name == "Schwab"

def is_income (c : Category) : Bool := c.name == "Pay"

def is_payment (c : Category) : Bool := c.name == "Payment"

end Category

/-- MonthlySummary dataclass; category_totals is a Python dict, modelled as an
insertion-ordered association list with (as for every dict) distinct keys. -/
structure MonthlySummary where
  month : String
  year : Nat
  month_year : String
  category_totals : List (String × Rat)
  investment_total : Rat
  total : Rat
  total_minus_invest : Rat
deriving DecidableEq

/-- dict.get(k, default): first binding of k, or the default. -/
def dictGet (l : List (String × Rat)) (k : String) (dflt : Rat) : Rat :=
  match l.find? (fun p => p.1 == k) with
  | some p => p.2
  | none => dflt

namespace MonthlySummary

/-- MonthlySummary.calculate_totals: investment total over the flagged
categories, total over every category key except Pay and Payment, and the
derived difference. -/
def calculate_totals (s : MonthlySummary) (categories : List (String × Category)) : MonthlySummary :=
  let investment_categories := (categories.filter (fun p => p.2.is_investment)).map Prod.fst
  let investment_total := (investment_categories.map (fun c => dictGet s.category_totals c 0)).sum
  let total := (((s.category_totals.map Prod.fst).filter
      (fun c => !(c == "Pay" || c == "Payment"))).map (fun c => dictGet s.category_totals c 0)).sum
  { s with investment_total := investment_total, total := total,
           total_minus_invest := total - investment_total }

end MonthlySummary

/-! # src/repositories/transaction_repository.py

The transactions table is modelled as the list of persisted rows in insertion
order; a SELECT without ORDER BY yields the first match in that order. The
only uniqueness constraint on the table is transaction_hash (database.py:
Column(String, unique=True)). -/

namespace TransactionRepository

/-- find_by_base_hash_and_rank: first persisted row with the given base_hash
and rank_within_batch (a NULL rank column never matches). -/
def find_by_base_hash_and_rank (store : List Transaction) (base_hash : String) (rank : Nat) :
    Option Transaction :=
  store.find? (fun t => t.base_hash == base_hash && t.rank_within_batch == some rank)

/-- is_duplicate: falsy base_hash (empty/None) or falsy rank (None or 0) short
circuits to False; otherwise a persisted (base_hash, rank) match is a duplicate
exactly when its import_timestamp differs. -/
def is_duplicate (store : List Transaction) (t : Transaction) : Bool :=
  if t.base_hash == "" || t.rank_within_batch.getD 0 == 0 then false
  else
    match find_by_base_hash_and_rank store t.base_hash (t.rank_within_batch.getD 0) with
    | some existing => existing.import_timestamp != t.import_timestamp
    | none => false

/-- Base-hash backfill done at the top of the grouping loop:
if not transaction.base_hash, recompute it from the four identity fields. -/
def setBase (t : Transaction) : Transaction :=
  if t.base_hash == "" then
    { t with base_hash := Transaction.create_base_hash (.d t.date) t.description t.amount t.source }
  else t

/-- Append index i to the group of key h (defaultdict(list) keyed by base_hash,
insertion-ordered as Python dicts are). -/
def addIdx (acc : List (String × List Nat)) (h : String) (i : Nat) : List (String × List Nat) :=
  match acc with
  | [] => [(h, [i])]
  | g :: rest => if g.1 == h then (g.1, g.2 ++ [i]) :: rest else g :: addIdx rest h i

/-- base_hash_groups built by the grouping loop, holding row indices. -/
def groupIndices (hashes : List String) : List (String × List Nat) :=
  (List.range hashes.length).foldl (fun acc i => addIdx acc (hashes.getD i "") i) []

def idxIn (l : List Nat) (x : Nat) : Nat :=
  match l with
  | [] => 0
  | a :: r => if a == x then 0 else idxIn r x + 1

/-- Rank assigned to row i: its 1-based position inside its base_hash group
(enumerate(tx_group, 1) in the source). -/
def rankOf (groups : List (String × List Nat)) (i : Nat) : Nat :=
  match groups.find? (fun g => g.2.contains i) with
  | some g => idxIn g.2 i + 1
  | none => 0

/-- assign_ranks_within_batch: backfill base hashes, group rows by base_hash,
assign 1-based ranks within each group in first-seen order, stamp the shared
batch id and import timestamp, and regenerate the full transaction hash.
The Python mutates the row objects in place, so the batch keeps its order. -/
def assign_ranks_within_batch (transactions : List Transaction)
    (import_batch_id : String) (import_timestamp : Nat) : List Transaction :=
  let txs := transactions.map setBase
  let groups := groupIndices (txs.map (fun t => t.base_hash))
  txs.mapIdx (fun i t =>
    Transaction.generate_full_hash
      { t with rank_within_batch := some (rankOf groups i),
               import_batch_id := some import_batch_id,
               import_timestamp := some import_timestamp })

/-- Accumulated result of save_many: the table plus the returned triple
(records_added, affected_data month -> category set, duplicate_hashes). -/
structure SaveState where
  store : List Transaction
  records_added : Nat
  affected_data : List (String × List String)
  duplicate_hashes : List String
deriving DecidableEq

/-- affected_data[month].add(category) with dict-of-sets semantics. -/
def addAffected (m : List (String × List String)) (month category : String) :
    List (String × List String) :=
  match m with
  | [] => [(month, [category])]
  | g :: rest =>
    if g.1 == month then
      (if g.2.contains category then g :: rest else (g.1, g.2 ++ [category]) :: rest)
    else g :: addAffected rest month category

/-- Per-row body of the save_many loop: classify, then insert; an insert that
violates the transaction_hash uniqueness constraint (IntegrityError) is
recorded as a duplicate instead of raising. -/
def save_one (st : SaveState) (t : Transaction) : SaveState :=
  if is_duplicate st.store t then
    { st with duplicate_hashes := st.duplicate_hashes ++ [t.base_hash] }
  else if st.store.any (fun x => x.transaction_hash == t.transaction_hash) then
    { st with duplicate_hashes := st.duplicate_hashes ++ [t.base_hash] }
  else
    { st with store := st.store ++ [t],
              records_added := st.records_added + 1,
              affected_data := addAffected st.affected_data t.month_str t.category }

/-- save_many: early return on an empty batch; otherwise assign ranks for the
whole batch, then process the rows strictly in batch order. -/
def save_many (store : List Transaction) (transactions : List Transaction)
    (import_batch_id : String) (import_timestamp : Nat) : SaveState :=
  if transactions.isEmpty then ⟨store, 0, [], []⟩
  else (assign_ranks_within_batch transactions import_batch_id import_timestamp).foldl
    save_one ⟨store, 0, [], []⟩

def find_by_id (store : List Transaction) (transaction_id : Nat) : Option Transaction :=
  store.find? (fun t => t.id == some transaction_id)

/-- Field edits handed to TransactionRepository.update (updates.get(k, old)). -/
structure TxUpdates where
  date : Option DateVal
  description : Option String
  amount : Option String
  category : Option String
  source : Option String

/-- TransactionRepository.update: merge the edits over the existing row,
regenerate the base hash from the merged identity fields, use the base hash
alone as the new transaction_hash, reject a hash collision with another row,
and rebuild the row without rank/batch/import metadata. -/
def update (store : List Transaction) (transaction_id : Nat) (updates : TxUpdates) :
    Except String (Transaction × List String) :=
  match find_by_id store transaction_id with
  | none => .error "Transaction not found"
  | some existing_tx =>
    let udate := updates.date.getD (.d existing_tx.date)
    let udesc := updates.description.getD existing_tx.description
    let uamt := updates.amount.getD existing_tx.amount
    let ucat := updates.category.getD existing_tx.category
    let usrc := updates.source.getD existing_tx.source
    match (match udate with | .s v => parseDate v | .d v => some v) with
    | none => .error "date parse error"
    | some new_date =>
      let new_month_str := fmtYM new_date
      let affected_months :=
        if new_month_str ≠ existing_tx.month_str then [existing_tx.month_str, new_month_str]
        else [existing_tx.month_str]
      let new_base_hash := Transaction.create_base_hash udate udesc uamt usrc
      let new_hash := new_base_hash
      if store.any (fun t => t.transaction_hash == new_hash && t.id != some transaction_id) then
        .error "Updated transaction would create a duplicate"
      else
        .ok ({ id := some transaction_id, date := new_date, description := udesc,
               amount := uamt, category := ucat, source := usrc,
               transaction_hash := new_hash, month_str := new_month_str,
               import_timestamp := none, rank_within_batch := none,
               import_batch_id := none, base_hash := new_base_hash }, affected_months)

end TransactionRepository

/-! # src/services/import_service.py (sign standardization at ingestion) -/

namespace ImportService

/-- Normalized CSV row as standardize_amount reads it (row.get lookups). -/
structure CsvRow where
  amount : Rat
  rtype : Option String
  category : Option String
  description : Option String

def leadsWith : List Char → List Char → Bool
  | [], _ => true
  | _ :: _, [] => false
  | p :: ps, c :: cs => p == c && leadsWith ps cs

def hasSubList : List Char → List Char → Bool
  | [], pat => pat.isEmpty
  | l@(_ :: cs), pat => leadsWith pat l || hasSubList cs pat

/-- Python substring containment (pat in s). -/
def strContains (s pat : String) : Bool := hasSubList s.toList pat.toList

/-- ImportService.standardize_amount: per-institution sign flip, then the
Pay/Payment override forcing a negative amount, then the Zelle direction
overrides. -/
def standardize_amount (row : CsvRow) (account_type : String) : Rat :=
  let amount := row.amount
  let base_amount :=
    if account_type == "chase" || account_type == "wells" then -amount
    else if account_type == "citi" then
      match row.rtype with
      | some t => if t == "Credit" then -amount else amount
      | none => amount
    else amount
  if (match row.category with
      | some c => c == "Pay" || c == "Payment"
      | none => false) then -|base_amount|
  else
    match row.description with
    | some d =>
      if strContains d.toLower "zelle from" then -|base_amount|
      else if strContains d.toLower "zelle to" then |base_amount|
      else base_amount
    | none => base_amount

end ImportService

/-! # src/repositories/monthly_summary_repository.py (per-category recompute) -/

namespace MonthlySummaryRepository

/-- Persisted transaction row as seen by the recompute SQL (month, category,
amount). Amounts are exact here; the float column is an external storage
detail. -/
structure TxRow where
  month : String
  category : String
  amount : Rat

/-- SELECT SUM(amount) FROM transactions WHERE month = :month AND category =
:category GROUP BY category — fetchone() is None when no row matches. -/
def sum_amounts (rows : List TxRow) (month category : String) : Option Rat :=
  let sel := rows.filter (fun r => r.month == month && r.category == category)
  if sel.isEmpty then none else some (sel.map (fun r => r.amount)).sum

/-- Python round(x, 2). Mathlib round is half-up where Python rounds half to
even; the two agree away from exact midpoints, and on every cent-valued sum
both are the identity. -/
def round2 (x : Rat) : Rat := (round (x * 100) : ℤ) / 100

/-- Per-category body of update_from_transactions: take the authoritative sum,
force Pay and Payment positive via abs, round to two decimals; a category with
no matching rows is skipped (left stale). -/
def recompute_category_total (rows : List TxRow) (month category : String) : Option Rat :=
  match sum_amounts rows month category with
  | none => none
  | some category_total =>
    let category_total :=
      if category == "Pay" || category == "Payment" then |category_total| else category_total
    some (round2 category_total)

end MonthlySummaryRepository

/-! # src/services/duplicate_detector.py (balance conflict resolver)

Python mixes float and Decimal here, and that mix matters: Decimal arithmetic
refuses float operands with a TypeError, while comparisons between the two are
allowed. PyNum models exactly that fragment of the Python numeric tower. -/

namespace DuplicateDetector

/-- Python runtime number: a float literal/result or a decimal.Decimal. -/
inductive PyNum where
  | f (q : Rat)
  | dec (q : Rat)
deriving DecidableEq

def PyNum.val : PyNum → Rat
  | .f q => q
  | .dec q => q

/-- Python subtraction: float-with-Decimal raises TypeError. -/
def pySub (a b : PyNum) : Except String PyNum :=
  match a, b with
  | .f x, .f y => .ok (.f (x - y))
  | .dec x, .dec y => .ok (.dec (x - y))
  | _, _ => .error "unsupported operand types for -: float and decimal.Decimal"

/-- Python division restricted likewise (only Decimal/Decimal occurs here). -/
def pyDiv (a b : PyNum) : Except String PyNum :=
  match a, b with
  | .f x, .f y => .ok (.f (x / y))
  | .dec x, .dec y => .ok (.dec (x / y))
  | _, _ => .error "unsupported operand types for /: float and decimal.Decimal"

def pyAbs : PyNum → PyNum
  | .f q => .f |q|
  | .dec q => .dec |q|

/-- PortfolioBalanceModel row (fields the detector reads). -/
structure Balance where
  id : Nat
  account_id : Nat
  balance_date : CalDate
  balance_amount : Rat
deriving DecidableEq

/-- DuplicateCheckResult dataclass. existing_balance keeps the id of the
offending row (the response dict carries more display fields; no embedded
logic reads them). Message strings elide Python locale formatting such as
thousands separators. -/
structure DuplicateCheckResult where
  is_duplicate : Bool
  conflict_type : String
  message : String
  existing_balance : Option Nat
  similarity_percentage : Rat
  recommendation : String
deriving DecidableEq

def similarity_threshold : Rat := 1 / 100

def warning_threshold : Rat := 5 / 100

def fmtMoney (q : Rat) : String := "$" ++ toString q

/-- MonthlyDuplicateDetector._analyze_conflict. The similarity computation is
1.0 - (amount_diff / existing_amount) with amount_diff and existing_amount
both Decimal, so the float-Decimal subtraction raises whenever
existing_amount is nonzero; the zero-amount branch produces a plain float. -/
def analyze_conflict (existing : Balance) (new_date : CalDate) (new_amount : Rat) :
    Except String DuplicateCheckResult := do
  let existing_amount : PyNum := .dec existing.balance_amount
  let similarity : PyNum ←
    if existing.balance_amount == 0 then
      pure (.f (if new_amount == 0 then 1 else 0))
    else do
      let amount_diff := pyAbs (← pySub existing_amount (.dec new_amount))
      pySub (.f 1) (← pyDiv amount_diff existing_amount)
  let similarity_percentage := similarity.val * 100
  if existing.balance_date = new_date then
    if similarity.val ≥ 1 - similarity_threshold then
      pure ⟨true, "exact_duplicate",
        "Identical balance already exists for " ++ isoDate new_date,
        some existing.id, similarity_percentage, "block_save"⟩
    else
      pure ⟨true, "same_date_different_amount",
        "Different balance exists for same date. Replace " ++ fmtMoney existing.balance_amount
          ++ " with " ++ fmtMoney new_amount ++ "?",
        some existing.id, similarity_percentage, "require_confirmation"⟩
  else
    if similarity.val ≥ 1 - similarity_threshold then
      pure ⟨true, "similar_monthly_balance",
        "Very similar balance exists for " ++ isoDate existing.balance_date ++ " in same month",
        some existing.id, similarity_percentage, "warn_user"⟩
    else if similarity.val ≥ 1 - warning_threshold then
      pure ⟨true, "monthly_update",
        "Monthly balance update. Replace " ++ fmtMoney existing.balance_amount
          ++ " with " ++ fmtMoney new_amount ++ "?",
        some existing.id, similarity_percentage, "suggest_update"⟩
    else
      pure ⟨true, "monthly_large_difference",
        "Large difference from existing monthly balance. Previous: "
          ++ fmtMoney existing.balance_amount ++ ", New: " ++ fmtMoney new_amount,
        some existing.id, similarity_percentage, "manual_review"⟩

def no_conflict : DuplicateCheckResult :=
  ⟨false, "none", "No conflicts detected", none, 0, "safe_to_save"⟩

/-- Loop over the same-month balances: return the first conflicting analysis
(every analysis that returns marks is_duplicate, so the first existing balance
decides unless it raises). -/
def firstConflict (balances : List Balance) (new_date : CalDate) (new_amount : Rat) :
    Except String DuplicateCheckResult :=
  match balances with
  | [] => pure no_conflict
  | b :: rest => do
    let r ← analyze_conflict b new_date new_amount
    if r.is_duplicate then pure r else firstConflict rest new_date new_amount

/-- Body of the try block of check_monthly_duplicates, given the rows the
session query yielded (or the error it raised). -/
def detectCore (fetched : Except String (List Balance)) (account_id : Nat)
    (balance_date : CalDate) (balance_amount : Rat) (exclude_id : Option Nat) :
    Except String DuplicateCheckResult := do
  let all ← fetched
  let matching := all.filter (fun b =>
    b.account_id == account_id
      && b.balance_date.year == balance_date.year
      && b.balance_date.month == balance_date.month)
  let existing_balances :=
    match exclude_id with
    | some i => if i ≠ 0 then matching.filter (fun b => b.id != i) else matching
    | none => matching
  if existing_balances.isEmpty then pure no_conflict
  else firstConflict existing_balances balance_date balance_amount

/-- MonthlyDuplicateDetector.check_monthly_duplicates: the whole body sits in a
try/except that converts any exception into an error-shaped result instead of
raising. -/
def check_monthly_duplicates (fetched : Except String (List Balance)) (account_id : Nat)
    (balance_date : CalDate) (balance_amount : Rat) (exclude_id : Option Nat) :
    DuplicateCheckResult :=
  match detectCore fetched account_id balance_date balance_amount exclude_id with
  | .ok r => r
  | .error e =>
    ⟨false, "error", "Error checking duplicates: " ++ e, none, 0, "manual_review"⟩

end DuplicateDetector

/-! # Auxiliary instances and shared helpers -/

instance {e a : Type} [DecidableEq e] [DecidableEq a] : DecidableEq (Except e a) := fun x y =>
  match x, y with
  | .ok v, .ok w => if h : v = w then isTrue (by rw [h]) else isFalse (by simp [h])
  | .error v, .error w => if h : v = w then isTrue (by rw [h]) else isFalse (by simp [h])
  | .ok _, .error _ => isFalse (by simp)
  | .error _, .ok _ => isFalse (by simp)

/-- Base hash a row effectively carries after the backfill at the top of
assign_ranks_within_batch. -/
def TransactionRepository.effBase (t : Transaction) : String :=
  (TransactionRepository.setBase t).base_hash

set_option maxRecDepth 1000000

/-! # Proof-support definitions -/

namespace TransactionRepository

/-- Value of a key in the insertion-ordered group map ([] when absent). -/
def lookupG : List (String × List Nat) → String → List Nat
  | [], _ => []
  | g :: rest, h => if g.1 == h then g.2 else lookupG rest h

/-- The group map built from the first n indices. -/
def buildG (hs : List String) (n : Nat) : List (String × List Nat) :=
  (List.range n).foldl (fun acc i => addIdx acc (hs.getD i "") i) []

end TransactionRepository

/-! # Concrete rows and batches used as claim witnesses and counterexamples -/

/-- Stored row carrying rank_within_batch = 0 (the rank column is a nullable
integer; 0 is a representable value the schema admits). -/
def c2_stored : Transaction :=
  { id := some 1, date := ⟨2024, 3, 1⟩, description := "X", amount := "1", category := "Misc",
    source := "chase", transaction_hash := "t1", month_str := "2024-03",
    import_timestamp := some 100, rank_within_batch := some 0, import_batch_id := some "b1",
    base_hash := "abc" }

/-- Incoming row with the same (base_hash, rank = 0) and a different
import_timestamp. -/
def c2_incoming : Transaction :=
  { c2_stored with id := none, transaction_hash := "t2", import_timestamp := some 200,
                   import_batch_id := some "b2" }

def c2w_stored : Transaction := { c2_stored with rank_within_batch := some 2 }

def c2w_incoming : Transaction := { c2_incoming with rank_within_batch := some 2 }

/-- Existing snapshot of the spec's own classification example: $1,000.00 on
2024-03-15. -/
def c5_existing : DuplicateDetector.Balance := ⟨1, 1, ⟨2024, 3, 15⟩, 1000⟩

def c10_balance : DuplicateDetector.Balance := ⟨7, 3, ⟨2024, 5, 2⟩, 500⟩

/-- Monthly summary with zero and negative category entries (March 2024). -/
def c4_summary : MonthlySummary :=
  ⟨"March", 2024, "March 2024",
    [("Pay", 5000), ("Groceries", -3), ("Acorns", 0), ("Payment", 200), ("Rent", 1200)],
    0, 0, 0⟩

def c4_categories : List (String × Category) :=
  [("Pay", ⟨"Pay"⟩), ("Groceries", ⟨"Groceries"⟩), ("Acorns", ⟨"Acorns"⟩),
   ("Payment", ⟨"Payment"⟩), ("Rent", ⟨"Rent"⟩)]

def c8_tx : Transaction :=
  { id := some 1, date := ⟨2024, 3, 5⟩, description := "Old", amount := "10.00",
    category := "Misc", source := "chase", transaction_hash := "full123",
    month_str := "2024-03", import_timestamp := some 50, rank_within_batch := some 2,
    import_batch_id := some "b", base_hash := "base123" }

def c8_store : List Transaction := [c8_tx]

def c8_upd : TransactionRepository.TxUpdates :=
  { date := none, description := some "New Desc", amount := none, category := none,
    source := none }

def c8_pair : Transaction × List String :=
  (TransactionRepository.update c8_store 1 c8_upd).toOption.getD (c8_tx, [])

def c9_rows : List MonthlySummaryRepository.TxRow :=
  [⟨"2024-03", "Pay", -5000⟩, ⟨"2024-03", "Pay", -250⟩, ⟨"2024-03", "Groceries", -3⟩]

def c9_row : ImportService.CsvRow :=
  { amount := 123, rtype := none, category := some "Pay", description := some "ACME PAYROLL" }

def c3_a : Transaction :=
  { id := none, date := ⟨2024, 3, 1⟩, description := "Coffee", amount := "4.50",
    category := "Dining", source := "chase", transaction_hash := "", month_str := "2024-03",
    import_timestamp := none, rank_within_batch := none, import_batch_id := none,
    base_hash := "" }

def c3_b : Transaction := { c3_a with description := "Tea", amount := "3.00" }

def c3_txs : List Transaction := [c3_a, c3_b]

def c3_txs2 : List Transaction := [c3_b, c3_a]

def c7_dflt : Transaction :=
  { id := none, date := ⟨2024, 1, 1⟩, description := "none", amount := "0",
    category := "Misc", source := "x", transaction_hash := "", month_str := "2024-01",
    import_timestamp := none, rank_within_batch := none, import_batch_id := none,
    base_hash := "zz" }

def c7_a : Transaction :=
  { c7_dflt with description := "Coffee", base_hash := "h1", transaction_hash := "t1" }

def c7_b : Transaction :=
  { c7_dflt with description := "Tea", base_hash := "h2", transaction_hash := "t2" }

def c7_txs : List Transaction := [c7_a, c7_b, c7_a]

/-! # Claim theorems -/

/-- C1 (counterexample): the spec's two renderings of the same logical
transaction — ("3/1/2024", "Coffee Shop", 4.50, "chase") and
("2024-03-01", " coffee shop ", 4.50, "CHASE") — do NOT produce the same
identity hash: create_base_hash standardizes only the date and hashes the
description and source verbatim, so the case/whitespace variants feed md5
different strings. -/
theorem c1_spec_pair_hashes_differ :
    Transaction.create_base_hash (.s "3/1/2024") "Coffee Shop" "4.50" "chase" ≠
    Transaction.create_base_hash (.s "2024-03-01") " coffee shop " "4.50" "CHASE" := by
  decide

/-- C1 (amended): canonicalization is stable across date representations only:
two rows whose date strings parse to the same calendar date and whose
description, amount serialization, and source agree exactly (case- and
whitespace-sensitively) receive the identical identity hash. -/
theorem c1_hash_stable_across_date_formats (s1 s2 : String) (d : CalDate)
    (description amount source : String)
    (h1 : parseDate s1 = some d) (h2 : parseDate s2 = some d) :
    Transaction.create_base_hash (.s s1) description amount source =
    Transaction.create_base_hash (.s s2) description amount source := by
  simp [Transaction.create_base_hash, h1, h2]

/-- C1 (witness): instantiation of the amended claim at "3/1/2024" versus
"2024-03-01" for an identically written description/amount/source. -/
theorem c1_hash_stable_witness :
    parseDate "3/1/2024" = some ⟨2024, 3, 1⟩ ∧
    parseDate "2024-03-01" = some ⟨2024, 3, 1⟩ ∧
    Transaction.create_base_hash (.s "3/1/2024") "Coffee Shop" "4.50" "chase" =
      Transaction.create_base_hash (.s "2024-03-01") "Coffee Shop" "4.50" "chase" :=
  ⟨by decide, by decide,
    c1_hash_stable_across_date_formats "3/1/2024" "2024-03-01" ⟨2024, 3, 1⟩
      "Coffee Shop" "4.50" "chase" (by decide) (by decide)⟩

/-- C5 (code evaluated at the failing input): at the spec's own first table row
(existing $1000.00 on 2024-03-15, new $1000.00 on 2024-03-15, expected
exact_duplicate/block_save) the similarity computation
1.0 - (amount_diff / existing_amount) mixes a float with Decimal operands and
raises TypeError, so _analyze_conflict never reaches the classification table
for any nonzero existing amount and check_monthly_duplicates returns its
error-shaped result (conflict_type "error", recommendation "manual_review")
instead. -/
theorem c5_classifier_raises_on_nonzero_existing :
    DuplicateDetector.analyze_conflict c5_existing ⟨2024, 3, 15⟩ 1000 =
      .error "unsupported operand types for -: float and decimal.Decimal"
    ∧ DuplicateDetector.check_monthly_duplicates (.ok [c5_existing]) 1 ⟨2024, 3, 15⟩ 1000 none =
      ⟨false, "error",
        "Error checking duplicates: unsupported operand types for -: float and decimal.Decimal",
        none, 0, "manual_review"⟩ := by
  constructor
  · decide
  · decide

/-- C6: a row the classifier passed (not flagged duplicate) whose insert then
hits the transaction_hash uniqueness violation (IntegrityError) is handled
exactly like a detected duplicate: it is appended to the duplicate list, the
accepted count does not grow, no affected scope is recorded, the table is
unchanged, and processing continues (save_one is total, nothing propagates). -/
theorem c6_integrity_error_treated_as_duplicate (st : TransactionRepository.SaveState)
    (t : Transaction)
    (hnotdup : TransactionRepository.is_duplicate st.store t = false)
    (hviol : st.store.any (fun x => x.transaction_hash == t.transaction_hash) = true) :
    (TransactionRepository.save_one st t).records_added = st.records_added
    ∧ (TransactionRepository.save_one st t).affected_data = st.affected_data
    ∧ (TransactionRepository.save_one st t).store = st.store
    ∧ (TransactionRepository.save_one st t).duplicate_hashes
        = st.duplicate_hashes ++ [t.base_hash] := by
  simp [TransactionRepository.save_one, hnotdup, hviol]

/-- C6 (witness): a concrete state whose table already holds the incoming
transaction_hash under a different base hash, so the classifier says no but
the insert conflicts. -/
theorem c6_integrity_error_witness :
    TransactionRepository.is_duplicate [c2_stored] { c2_incoming with base_hash := "zzz" } = false
    ∧ [c2_stored].any (fun x => x.transaction_hash == ({ c2_incoming with base_hash := "zzz", transaction_hash := "t1" } : Transaction).transaction_hash) = true
    ∧ ((TransactionRepository.save_one ⟨[c2_stored], 0, [], []⟩
          { c2_incoming with base_hash := "zzz", transaction_hash := "t1" }).records_added = 0
        ∧ (TransactionRepository.save_one ⟨[c2_stored], 0, [], []⟩
          { c2_incoming with base_hash := "zzz", transaction_hash := "t1" }).affected_data = []
        ∧ (TransactionRepository.save_one ⟨[c2_stored], 0, [], []⟩
          { c2_incoming with base_hash := "zzz", transaction_hash := "t1" }).store = [c2_stored]
        ∧ (TransactionRepository.save_one ⟨[c2_stored], 0, [], []⟩
          { c2_incoming with base_hash := "zzz", transaction_hash := "t1" }).duplicate_hashes
            = [] ++ [({ c2_incoming with base_hash := "zzz", transaction_hash := "t1" } : Transaction).base_hash]) :=
  ⟨by decide, by decide,
    c6_integrity_error_treated_as_duplicate ⟨[c2_stored], 0, [], []⟩
      { c2_incoming with base_hash := "zzz", transaction_hash := "t1" } (by decide) (by decide)⟩

/-- C10: check_monthly_duplicates converts failure into data instead of
raising: whenever the try-block body (the session query plus the conflict
analysis) ends in an exception e, the call returns a DuplicateCheckResult with
is_duplicate = false, conflict_type "error" and recommendation
"manual_review" carrying e in its message; and whenever the body succeeds its
result is returned as is. The function itself is total. -/
theorem c10_exceptions_become_results (fetched : Except String (List DuplicateDetector.Balance))
    (account_id : Nat) (balance_date : CalDate) (balance_amount : Rat)
    (exclude_id : Option Nat) :
    (∀ e, DuplicateDetector.detectCore fetched account_id balance_date balance_amount exclude_id
        = .error e →
      DuplicateDetector.check_monthly_duplicates fetched account_id balance_date balance_amount
          exclude_id =
        ⟨false, "error", "Error checking duplicates: " ++ e, none, 0, "manual_review"⟩)
    ∧ (∀ r, DuplicateDetector.detectCore fetched account_id balance_date balance_amount exclude_id
        = .ok r →
      DuplicateDetector.check_monthly_duplicates fetched account_id balance_date balance_amount
          exclude_id = r) := by
  constructor <;> intro x hx <;>
    simp [DuplicateDetector.check_monthly_duplicates, hx]

/-- C10 (witness): a concrete internal failure (the float/Decimal TypeError
triggered by a nonzero same-month balance) is converted into the error-shaped
result. -/
theorem c10_exceptions_become_results_witness :
    DuplicateDetector.detectCore (.ok [c10_balance]) 3 ⟨2024, 5, 20⟩ 510 none =
      .error "unsupported operand types for -: float and decimal.Decimal"
    ∧ DuplicateDetector.check_monthly_duplicates (.ok [c10_balance]) 3 ⟨2024, 5, 20⟩ 510 none =
      ⟨false, "error",
        "Error checking duplicates: " ++ "unsupported operand types for -: float and decimal.Decimal",
        none, 0, "manual_review"⟩ :=
  ⟨by decide,
    (c10_exceptions_become_results (.ok [c10_balance]) 3 ⟨2024, 5, 20⟩ 510 none).1
      "unsupported operand types for -: float and decimal.Decimal" (by decide)⟩

/-- C2 (counterexample): the literal biconditional fails for a transaction
carrying rank_within_batch = 0: Python treats the 0 rank as falsy, so
is_duplicate returns False even though a persisted record with the same
(base_hash, rank) and a different import_timestamp exists. -/
theorem c2_rank_zero_counterexample :
    TransactionRepository.find_by_base_hash_and_rank [c2_stored] c2_incoming.base_hash 0
        = some c2_stored
    ∧ c2_stored.import_timestamp ≠ c2_incoming.import_timestamp
    ∧ c2_incoming.rank_within_batch = some 0
    ∧ c2_incoming.base_hash ≠ ""
    ∧ TransactionRepository.is_duplicate [c2_stored] c2_incoming = false := by
  refine ⟨by decide, by decide, by decide, by decide, by decide⟩

/-- C2 (amended): for every transaction carrying a nonempty base_hash and a
nonzero rank_within_batch, is_duplicate returns True exactly when the lookup
finds a persisted record with the same (base_hash, rank) whose
import_timestamp differs from the incoming one; it is False when no record is
found, and False when the found record shares the import_timestamp. -/
theorem c2_is_duplicate_iff (store : List Transaction) (t : Transaction) (r : Nat)
    (hb : t.base_hash ≠ "") (hr : t.rank_within_batch = some r) (hr0 : r ≠ 0) :
    TransactionRepository.is_duplicate store t = true ↔
      ∃ e, TransactionRepository.find_by_base_hash_and_rank store t.base_hash r = some e ∧
        e.import_timestamp ≠ t.import_timestamp := by
  have hguard : (t.base_hash == "" || (t.rank_within_batch.getD 0) == 0) = false := by
    rw [hr]
    simp [hb, hr0]
  unfold TransactionRepository.is_duplicate
  rw [hguard]
  simp only [Bool.false_eq_true, if_false, hr, Option.getD_some]
  cases hfind : TransactionRepository.find_by_base_hash_and_rank store t.base_hash r with
  | none => simp
  | some e => simp [bne_iff_ne]

/-- C2 (witness): instantiation of the amended claim: rank 2, differing
timestamps, duplicate detected. -/
theorem c2_is_duplicate_iff_witness :
    c2w_incoming.base_hash ≠ ""
    ∧ c2w_incoming.rank_within_batch = some 2
    ∧ (2 : Nat) ≠ 0
    ∧ (TransactionRepository.is_duplicate [c2w_stored] c2w_incoming = true ↔
        ∃ e, TransactionRepository.find_by_base_hash_and_rank [c2w_stored] c2w_incoming.base_hash 2
            = some e ∧ e.import_timestamp ≠ c2w_incoming.import_timestamp) :=
  ⟨by decide, by decide, by decide,
    c2_is_duplicate_iff [c2w_stored] c2w_incoming 2 (by decide) (by decide) (by decide)⟩

/-- Summing a dict by iterating its keys and looking each key up equals
summing the values directly, for any dict (distinct keys). -/
theorem dictGet_sum_filter (l : List (String × Rat)) (hnd : (l.map Prod.fst).Nodup) :
    (((l.map Prod.fst).filter (fun c => !(c == "Pay" || c == "Payment"))).map
        (fun c => dictGet l c 0)).sum
      = ((l.filter (fun p => !(p.1 == "Pay" || p.1 == "Payment"))).map Prod.snd).sum := by
  induction l with
  | nil => simp
  | cons p rest ih =>
    obtain ⟨k, v⟩ := p
    simp only [List.map_cons] at hnd
    have hk : k ∉ rest.map Prod.fst := (List.nodup_cons.mp hnd).1
    have hrest := (List.nodup_cons.mp hnd).2
    have hget_head : dictGet ((k, v) :: rest) k 0 = v := by
      simp [dictGet, List.find?]
    have hget_tail : ∀ c ∈ (rest.map Prod.fst).filter (fun c => !(c == "Pay" || c == "Payment")),
        dictGet ((k, v) :: rest) c 0 = dictGet rest c 0 := by
      intro c hc
      have hcm : c ∈ rest.map Prod.fst := (List.mem_filter.mp hc).1
      have hck : (k == c) = false := by
        have : c ≠ k := fun h => hk (h ▸ hcm)
        exact beq_eq_false_iff_ne.mpr (Ne.symm this)
      simp [dictGet, List.find?, hck]
    cases hP : (!(k == "Pay" || k == "Payment")) with
    | false =>
      simp only [List.map_cons, List.filter_cons, hP, Bool.false_eq_true, if_false]
      rw [List.map_congr_left hget_tail, ih hrest]
    | true =>
      simp only [List.map_cons, List.filter_cons, hP, if_true, List.map_cons, List.sum_cons]
      rw [hget_head, List.map_congr_left hget_tail, ih hrest]

/-- C4: after calculate_totals, total_minus_invest is exactly total minus
investment_total (for every category-total combination, zero and negative
entries included), and total sums exactly the category totals whose key is
neither the income category "Pay" nor the payment category "Payment". -/
theorem c4_aggregate_identity (s : MonthlySummary) (categories : List (String × Category)) :
    (s.calculate_totals categories).total_minus_invest
        = (s.calculate_totals categories).total
          - (s.calculate_totals categories).investment_total
    ∧ ((s.category_totals.map Prod.fst).Nodup →
        (s.calculate_totals categories).total =
          ((s.category_totals.filter (fun p => !(p.1 == "Pay" || p.1 == "Payment"))).map
              Prod.snd).sum) := by
  constructor
  · rfl
  · intro hnd
    simpa [MonthlySummary.calculate_totals] using dictGet_sum_filter s.category_totals hnd

/-- C4 (witness): the aggregate identity at a summary holding zero and
negative entries. -/
theorem c4_aggregate_identity_witness :
    (c4_summary.category_totals.map Prod.fst).Nodup
    ∧ ((c4_summary.calculate_totals c4_categories).total_minus_invest
        = (c4_summary.calculate_totals c4_categories).total
          - (c4_summary.calculate_totals c4_categories).investment_total
      ∧ ((c4_summary.category_totals.map Prod.fst).Nodup →
          (c4_summary.calculate_totals c4_categories).total =
            ((c4_summary.category_totals.filter
                (fun p => !(p.1 == "Pay" || p.1 == "Payment"))).map Prod.snd).sum)) :=
  ⟨by decide, c4_aggregate_identity c4_summary c4_categories⟩

/-- Rounding to two decimals is the identity on any cent-valued rational. -/
theorem round2_cents (x : Rat) (hx : (x * 100).den = 1) :
    MonthlySummaryRepository.round2 x = x := by
  unfold MonthlySummaryRepository.round2
  have h := (Rat.den_eq_one_iff (x * 100)).mp hx
  rw [← h, round_intCast, h]
  rw [mul_div_assoc]
  norm_num

theorem abs_cents (x : Rat) (hx : (x * 100).den = 1) : (|x| * 100).den = 1 := by
  rcases abs_cases x with ⟨h1, _⟩ | ⟨h1, _⟩
  · rw [h1]; exact hx
  · rw [h1, show -x * 100 = -(x * 100) by ring, Rat.neg_den]; exact hx

/-- C9: the recompute step stores the absolute value of the authoritative sum
for the categories Pay and Payment and the signed sum for every other
category, while ingestion (standardize_amount) forces each individual
Pay/Payment amount to be nonpositive (minus the absolute value of the
sign-standardized amount). Sums are taken cent-valued, where the final
round-to-2-decimals is the identity. -/
theorem c9_pay_payment_stored_abs :
    (∀ rows month category total,
        (category == "Pay" || category == "Payment") = true →
        MonthlySummaryRepository.sum_amounts rows month category = some total →
        (total * 100).den = 1 →
        MonthlySummaryRepository.recompute_category_total rows month category = some |total|)
    ∧ (∀ rows month category total,
        (category == "Pay" || category == "Payment") = false →
        MonthlySummaryRepository.sum_amounts rows month category = some total →
        (total * 100).den = 1 →
        MonthlySummaryRepository.recompute_category_total rows month category = some total)
    ∧ (∀ (row : ImportService.CsvRow) (acct c : String),
        row.category = some c → (c == "Pay" || c == "Payment") = true →
        ImportService.standardize_amount row acct ≤ 0) := by
  refine ⟨?_, ?_, ?_⟩
  · intro rows month category total hcat hsum hden
    simp [MonthlySummaryRepository.recompute_category_total, hsum, hcat,
      round2_cents _ (abs_cents _ hden)]
  · intro rows month category total hcat hsum hden
    simp [MonthlySummaryRepository.recompute_category_total, hsum, hcat,
      round2_cents _ hden]
  · intro row acct c hc hcat
    have hmatch : (match row.category with
        | some c => c == "Pay" || c == "Payment"
        | none => false) = true := by rw [hc]; exact hcat
    simp only [ImportService.standardize_amount, hmatch, if_true]
    exact neg_nonpos.mpr (abs_nonneg _)

/-- C9 (witness): March Pay rows ingested as negatives sum to -5250 and are
stored as 5250; the untouched category keeps its signed sum; a Pay CSV row is
forced nonpositive. -/
theorem c9_pay_payment_stored_abs_witness :
    MonthlySummaryRepository.sum_amounts c9_rows "2024-03" "Pay" = some (-5250)
    ∧ MonthlySummaryRepository.recompute_category_total c9_rows "2024-03" "Pay"
        = some |(-5250 : Rat)|
    ∧ MonthlySummaryRepository.recompute_category_total c9_rows "2024-03" "Groceries"
        = some (-3)
    ∧ c9_row.category = some "Pay"
    ∧ ImportService.standardize_amount c9_row "chase" ≤ 0 := by
  have hfP : c9_rows.filter (fun r => r.month == "2024-03" && r.category == "Pay")
      = [⟨"2024-03", "Pay", -5000⟩, ⟨"2024-03", "Pay", -250⟩] := rfl
  have hfG : c9_rows.filter (fun r => r.month == "2024-03" && r.category == "Groceries")
      = [⟨"2024-03", "Groceries", -3⟩] := rfl
  have hsum : MonthlySummaryRepository.sum_amounts c9_rows "2024-03" "Pay" = some (-5250) := by
    simp only [MonthlySummaryRepository.sum_amounts, hfP, List.isEmpty_cons,
      Bool.false_eq_true, if_false, List.map_cons, List.map_nil, List.sum_cons, List.sum_nil,
      Option.some.injEq]
    norm_num
  have hsumG : MonthlySummaryRepository.sum_amounts c9_rows "2024-03" "Groceries"
      = some (-3) := by
    simp only [MonthlySummaryRepository.sum_amounts, hfG, List.isEmpty_cons,
      Bool.false_eq_true, if_false, List.map_cons, List.map_nil, List.sum_cons, List.sum_nil,
      Option.some.injEq]
    norm_num
  have hden : ((-5250 : ℚ) * 100).den = 1 := by
    rw [show ((-5250 : ℚ) * 100) = ((-525000 : ℤ) : ℚ) by norm_num]
    exact Rat.den_intCast _
  have hdenG : ((-3 : ℚ) * 100).den = 1 := by
    rw [show ((-3 : ℚ) * 100) = ((-300 : ℤ) : ℚ) by norm_num]
    exact Rat.den_intCast _
  exact ⟨hsum,
    c9_pay_payment_stored_abs.1 c9_rows "2024-03" "Pay" (-5250) (by decide) hsum hden,
    c9_pay_payment_stored_abs.2.1 c9_rows "2024-03" "Groceries" (-3) (by decide) hsumG hdenG,
    by decide,
    c9_pay_payment_stored_abs.2.2 c9_row "chase" "Pay" (by decide) (by decide)⟩

/-- C8: an edit through TransactionRepository.update regenerates the identity
hash from the merged (date, description, amount, source) and stores exactly
that base hash as the new transaction_hash — the manual-transaction form of
create_hash with rank and batch id absent — so the stored hash incorporates
neither rank_within_batch nor import_batch_id, and the rebuilt row carries no
rank/batch metadata at all. -/
theorem c8_update_hash_bypasses_rank_batch (store : List Transaction) (transaction_id : Nat)
    (updates : TransactionRepository.TxUpdates) (existing_tx : Transaction)
    (hfind : TransactionRepository.find_by_id store transaction_id = some existing_tx)
    (t2 : Transaction) (months : List String)
    (hok : TransactionRepository.update store transaction_id updates = .ok (t2, months)) :
    t2.transaction_hash
        = Transaction.create_base_hash (updates.date.getD (.d existing_tx.date))
            (updates.description.getD existing_tx.description)
            (updates.amount.getD existing_tx.amount)
            (updates.source.getD existing_tx.source)
    ∧ t2.transaction_hash
        = Transaction.create_hash (updates.date.getD (.d existing_tx.date))
            (updates.description.getD existing_tx.description)
            (updates.amount.getD existing_tx.amount)
            (updates.source.getD existing_tx.source) none none
    ∧ t2.transaction_hash = t2.base_hash
    ∧ t2.rank_within_batch = none
    ∧ t2.import_batch_id = none := by
  simp only [TransactionRepository.update, hfind] at hok
  split at hok
  · exact absurd hok (by simp)
  · split at hok
    · exact absurd hok (by simp)
    · injection hok with h
      rw [Prod.mk.injEq] at h
      obtain ⟨h1, _⟩ := h
      subst h1
      exact ⟨rfl, rfl, rfl, rfl, rfl⟩

/-- C8 (witness): editing the description of a stored ranked row; the new
stored hash is the regenerated base hash and the rank/batch metadata is gone. -/
theorem c8_update_hash_witness :
    TransactionRepository.find_by_id c8_store 1 = some c8_tx
    ∧ TransactionRepository.update c8_store 1 c8_upd = .ok (c8_pair.1, c8_pair.2)
    ∧ (c8_pair.1.transaction_hash
        = Transaction.create_base_hash (c8_upd.date.getD (.d c8_tx.date))
            (c8_upd.description.getD c8_tx.description)
            (c8_upd.amount.getD c8_tx.amount)
            (c8_upd.source.getD c8_tx.source)
      ∧ c8_pair.1.transaction_hash
        = Transaction.create_hash (c8_upd.date.getD (.d c8_tx.date))
            (c8_upd.description.getD c8_tx.description)
            (c8_upd.amount.getD c8_tx.amount)
            (c8_upd.source.getD c8_tx.source) none none
      ∧ c8_pair.1.transaction_hash = c8_pair.1.base_hash
      ∧ c8_pair.1.rank_within_batch = none
      ∧ c8_pair.1.import_batch_id = none) :=
  ⟨by decide, by decide,
    c8_update_hash_bypasses_rank_batch c8_store 1 c8_upd c8_tx (by decide)
      c8_pair.1 c8_pair.2 (by decide)⟩

namespace TransactionRepository

theorem lookupG_addIdx_same (acc : List (String × List Nat)) (h : String) (i : Nat) :
    lookupG (addIdx acc h i) h = lookupG acc h ++ [i] := by
  induction acc with
  | nil => simp [addIdx, lookupG]
  | cons g rest ih =>
    by_cases hg : (g.1 == h) = true
    · simp [addIdx, hg, lookupG]
    · simp [addIdx, hg, lookupG, ih]

theorem lookupG_addIdx_ne (acc : List (String × List Nat)) (h h2 : String) (i : Nat)
    (hne : h2 ≠ h) : lookupG (addIdx acc h i) h2 = lookupG acc h2 := by
  induction acc with
  | nil =>
    have hb : (h == h2) = false := beq_eq_false_iff_ne.mpr (Ne.symm hne)
    simp [addIdx, lookupG, hb]
  | cons g rest ih =>
    by_cases hg : (g.1 == h) = true
    · have hb2 : (g.1 == h2) = false :=
        beq_eq_false_iff_ne.mpr (by rw [eq_of_beq hg]; exact fun hh => hne hh.symm)
      simp [addIdx, hg, lookupG, hb2]
    · by_cases hg2 : (g.1 == h2) = true
      · simp [addIdx, hg, lookupG, hg2]
      · simp [addIdx, hg, lookupG, hg2, ih]

theorem keys_addIdx (acc : List (String × List Nat)) (h : String) (i : Nat) :
    (addIdx acc h i).map Prod.fst =
      if h ∈ acc.map Prod.fst then acc.map Prod.fst else acc.map Prod.fst ++ [h] := by
  induction acc with
  | nil => simp [addIdx]
  | cons g rest ih =>
    by_cases hg : (g.1 == h) = true
    · have := eq_of_beq hg
      simp [addIdx, hg, this]
    · have hne : h ≠ g.1 := fun hh => by simp [hh] at hg
      by_cases hmem : h ∈ rest.map Prod.fst
      · simp [addIdx, hg, ih, hmem, hne]
      · simp [addIdx, hg, ih, hmem, hne]

theorem mem_addIdx (acc : List (String × List Nat)) (h : String) (i : Nat)
    (p : String × List Nat) (hnd : (acc.map Prod.fst).Nodup) :
    p ∈ addIdx acc h i ↔ (p ∈ acc ∧ p.1 ≠ h) ∨ p = (h, lookupG acc h ++ [i]) := by
  induction acc with
  | nil => simp [addIdx, lookupG]
  | cons g rest ih =>
    simp only [List.map_cons, List.nodup_cons] at hnd
    obtain ⟨hg_not, hrest⟩ := hnd
    by_cases hg : (g.1 == h) = true
    · have hgh := eq_of_beq hg
      simp only [addIdx, hg, if_true, List.mem_cons, lookupG]
      constructor
      · rintro (rfl | hp)
        · right
          simp [hgh]
        · refine Or.inl ⟨Or.inr hp, ?_⟩
          intro hph
          have hm : p.1 ∈ rest.map Prod.fst := List.mem_map_of_mem Prod.fst hp
          rw [hph, ← hgh] at hm
          exact hg_not hm
      · rintro (⟨hp, hne⟩ | rfl)
        · rcases hp with rfl | hp2
          · exact absurd hgh hne
          · exact Or.inr hp2
        · exact Or.inl (by simp [hgh])
    · have hne : g.1 ≠ h := fun hh => by simp [hh] at hg
      simp only [addIdx, hg, Bool.false_eq_true, if_false, List.mem_cons, lookupG]
      rw [ih hrest]
      constructor
      · rintro (rfl | ⟨hp, hpne⟩ | rfl)
        · exact Or.inl ⟨Or.inl rfl, hne⟩
        · exact Or.inl ⟨Or.inr hp, hpne⟩
        · exact Or.inr rfl
      · rintro (⟨hp, hpne⟩ | rfl)
        · rcases hp with rfl | hp2
          · exact Or.inl rfl
          · exact Or.inr (Or.inl ⟨hp2, hpne⟩)
        · exact Or.inr (Or.inr rfl)

end TransactionRepository

namespace TransactionRepository

theorem lookupG_eq_of_mem (acc : List (String × List Nat)) (F : String → List Nat)
    (hspec : ∀ p ∈ acc, p.2 = F p.1) (h : String) (hmem : h ∈ acc.map Prod.fst) :
    lookupG acc h = F h := by
  induction acc with
  | nil => simp at hmem
  | cons g rest ih =>
    by_cases hg : (g.1 == h) = true
    · have hgh := eq_of_beq hg
      simp only [lookupG, hg, if_true]
      rw [hspec g (List.mem_cons_self g rest), hgh]
    · have hne : g.1 ≠ h := fun hh => by simp [hh] at hg
      rw [List.map_cons] at hmem
      have hmem2 : h ∈ rest.map Prod.fst := by
        rcases List.mem_cons.mp hmem with hh | hh
        · exact absurd hh.symm hne
        · exact hh
      simp only [lookupG, hg, Bool.false_eq_true, if_false]
      exact ih (fun p hp => hspec p (List.mem_cons_of_mem g hp)) hmem2

theorem lookupG_eq_nil_of_not_mem (acc : List (String × List Nat)) (h : String)
    (hmem : h ∉ acc.map Prod.fst) : lookupG acc h = [] := by
  induction acc with
  | nil => simp [lookupG]
  | cons g rest ih =>
    have hne : (g.1 == h) = false := by
      refine beq_eq_false_iff_ne.mpr fun hh => hmem ?_
      rw [← hh, List.map_cons]
      exact List.mem_cons_self g.1 _
    simp only [lookupG, hne, Bool.false_eq_true, if_false]
    refine ih fun hh => hmem ?_
    rw [List.map_cons]
    exact List.mem_cons_of_mem _ hh

theorem buildG_succ (hs : List String) (n : Nat) :
    buildG hs (n + 1) = addIdx (buildG hs n) (hs.getD n "") n := by
  simp only [buildG, List.range_succ, List.foldl_append, List.foldl_cons, List.foldl_nil]

/-- Invariant of the grouping loop: keys are distinct, every group holds
exactly the indices (in order) whose hash is its key, and every seen hash has
a group. -/
theorem buildG_spec (hs : List String) (n : Nat) :
    ((buildG hs n).map Prod.fst).Nodup
    ∧ (∀ p ∈ buildG hs n, p.2 = (List.range n).filter (fun j => hs.getD j "" == p.1))
    ∧ (∀ j, j < n → hs.getD j "" ∈ (buildG hs n).map Prod.fst) := by
  induction n with
  | zero => simp [buildG]
  | succ n ih =>
    obtain ⟨ihnd, ihspec, ihmem⟩ := ih
    refine ⟨?_, ?_, ?_⟩
    · rw [buildG_succ, keys_addIdx]
      by_cases hmem : hs.getD n "" ∈ (buildG hs n).map Prod.fst
      · rw [if_pos hmem]
        exact ihnd
      · rw [if_neg hmem, List.nodup_append]
        refine ⟨ihnd, List.nodup_singleton _, ?_⟩
        intro a ha hb
        rw [List.mem_singleton] at hb
        exact hmem (hb ▸ ha)
    · intro p hp
      rw [buildG_succ] at hp
      rcases (mem_addIdx _ _ _ _ ihnd).mp hp with ⟨hpacc, hpne⟩ | rfl
      · rw [ihspec p hpacc, List.range_succ, List.filter_append]
        have hb : (hs.getD n "" == p.1) = false := beq_eq_false_iff_ne.mpr (Ne.symm hpne)
        simp only [List.filter_cons, List.filter_nil, hb, Bool.false_eq_true, if_false,
          List.append_nil]
      · have hl : lookupG (buildG hs n) (hs.getD n "")
            = (List.range n).filter (fun j => hs.getD j "" == hs.getD n "") := by
          by_cases hmem : hs.getD n "" ∈ (buildG hs n).map Prod.fst
          · exact lookupG_eq_of_mem (buildG hs n)
              (fun x => (List.range n).filter (fun j => hs.getD j "" == x)) ihspec _ hmem
          · rw [lookupG_eq_nil_of_not_mem _ _ hmem]
            symm
            rw [List.filter_eq_nil_iff]
            intro j hj hbeq
            exact hmem (by rw [← eq_of_beq hbeq]; exact ihmem j (List.mem_range.mp hj))
        show lookupG (buildG hs n) (hs.getD n "") ++ [n]
            = (List.range (n + 1)).filter (fun j => hs.getD j "" == hs.getD n "")
        rw [List.range_succ, List.filter_append, hl]
        simp only [List.filter_cons, List.filter_nil, beq_self_eq_true, if_true]
    · intro j hj
      rw [buildG_succ, keys_addIdx]
      by_cases hmem : hs.getD n "" ∈ (buildG hs n).map Prod.fst
      · rw [if_pos hmem]
        rcases Nat.lt_succ_iff_lt_or_eq.mp hj with hj2 | rfl
        · exact ihmem j hj2
        · exact hmem
      · rw [if_neg hmem]
        rcases Nat.lt_succ_iff_lt_or_eq.mp hj with hj2 | rfl
        · exact List.mem_append_left _ (ihmem j hj2)
        · exact List.mem_append_right _ (List.mem_singleton.mpr rfl)

theorem find?_of_unique {α : Type} (pred : α → Bool) (l : List α) (p : α)
    (hmem : p ∈ l) (hp : pred p = true) (huniq : ∀ q ∈ l, pred q = true → q = p) :
    l.find? pred = some p := by
  induction l with
  | nil => simp at hmem
  | cons a rest ih =>
    by_cases ha : pred a = true
    · have hap : a = p := huniq a (List.mem_cons_self a rest) ha
      rw [List.find?_cons_of_pos _ ha, hap]
    · have hpr : p ∈ rest := by
        rcases List.mem_cons.mp hmem with rfl | h2
        · exact absurd hp ha
        · exact h2
      rw [List.find?_cons_of_neg _ ha]
      exact ih hpr (fun q hq hqp => huniq q (List.mem_cons_of_mem _ hq) hqp)

theorem idxIn_append (A B : List Nat) (i : Nat) (hA : ∀ a ∈ A, (a == i) = false) :
    idxIn (A ++ i :: B) i = A.length := by
  induction A with
  | nil => simp [idxIn]
  | cons a A ih =>
    have ha := hA a (List.mem_cons_self _ _)
    have ihr := ih (fun x hx => hA x (List.mem_cons_of_mem _ hx))
    simp only [List.cons_append, idxIn, ha, Bool.false_eq_true, if_false, List.length_cons]
    exact congrArg (fun n => n + 1) ihr

theorem idxIn_filter_range (P : Nat → Bool) (n i : Nat) (hi : i < n) (hP : P i = true) :
    idxIn ((List.range n).filter P) i = ((List.range i).filter P).length := by
  obtain ⟨k, rfl⟩ : ∃ k, n = i + (k + 1) := ⟨n - i - 1, by omega⟩
  rw [List.range_add]
  simp only [List.range_succ_eq_map, List.map_cons, List.map_map, Nat.add_zero]
  rw [List.filter_append, List.filter_cons]
  simp only [hP, if_true]
  refine idxIn_append _ _ _ ?_
  intro a ha
  have : a < i := List.mem_range.mp (List.mem_of_mem_filter ha)
  exact beq_eq_false_iff_ne.mpr (Nat.ne_of_lt this)

theorem filter_range_length (hs : List String) (h : String) (i : Nat) (hi : i ≤ hs.length) :
    ((List.range i).filter (fun j => hs.getD j "" == h)).length
      = (hs.take i).countP (fun x => x == h) := by
  induction i with
  | zero => simp
  | succ i ih =>
    have hi2 : i < hs.length := by omega
    rw [List.range_succ, List.filter_append, List.take_succ, List.getElem?_eq_getElem hi2]
    rw [List.length_append, List.countP_append, ih (by omega)]
    congr 1
    have hgd : hs.getD i "" = hs[i] := List.getD_eq_getElem hs "" hi2
    by_cases hb : (hs[i] == h) = true
    · simp only [List.filter_cons, List.filter_nil, hgd, hb, if_true, List.length_cons,
        List.length_nil, Option.toList_some, List.countP_cons, List.countP_nil]
    · simp only [List.filter_cons, List.filter_nil, hgd, hb, Bool.false_eq_true, if_false,
        List.length_nil, Option.toList_some, List.countP_cons, List.countP_nil]

/-- The rank the grouping assigns to row i is one more than the number of
earlier rows carrying the same hash. -/
theorem rankOf_spec (hs : List String) (i : Nat) (hi : i < hs.length) :
    rankOf (groupIndices hs) i
      = (hs.take i).countP (fun x => x == hs.getD i "") + 1 := by
  obtain ⟨hnd, hspec, hmem⟩ := buildG_spec hs hs.length
  have hhmem : hs.getD i "" ∈ (buildG hs hs.length).map Prod.fst := hmem i hi
  obtain ⟨p, hpmem, hp1⟩ := List.mem_map.mp hhmem
  have hp2 := hspec p hpmem
  have hicont : i ∈ p.2 := by
    rw [hp2, List.mem_filter]
    exact ⟨List.mem_range.mpr hi, by rw [hp1]; exact beq_self_eq_true _⟩
  have hpred : (fun g : String × List Nat => g.2.contains i) p = true :=
    List.elem_iff.mpr hicont
  have huniq : ∀ q ∈ buildG hs hs.length,
      (fun g : String × List Nat => g.2.contains i) q = true → q = p := by
    intro q hq hqc
    have hiq : i ∈ q.2 := List.elem_iff.mp hqc
    rw [hspec q hq, List.mem_filter] at hiq
    have hq1 : q.1 = p.1 := by
      rw [hp1]
      exact (eq_of_beq hiq.2).symm
    exact List.inj_on_of_nodup_map hnd hq hpmem hq1
  have hfind : (buildG hs hs.length).find? (fun g => g.2.contains i) = some p :=
    find?_of_unique _ _ p hpmem hpred huniq
  show rankOf (buildG hs hs.length) i = _
  simp only [rankOf, hfind]
  rw [hp2, hp1]
  rw [idxIn_filter_range (fun j => hs.getD j "" == hs.getD i "") hs.length i hi
    (beq_self_eq_true _)]
  rw [filter_range_length hs _ i (le_of_lt hi)]

end TransactionRepository

namespace TransactionRepository

theorem gfh_fields (t : Transaction) :
    (t.generate_full_hash).rank_within_batch = t.rank_within_batch
    ∧ (t.generate_full_hash).import_batch_id = t.import_batch_id
    ∧ (t.generate_full_hash).import_timestamp = t.import_timestamp
    ∧ (t.generate_full_hash).base_hash = t.base_hash
    ∧ (t.generate_full_hash).month_str = t.month_str
    ∧ (t.generate_full_hash).category = t.category := by
  cases h1 : t.rank_within_batch <;> cases h2 : t.import_batch_id <;>
    simp [Transaction.generate_full_hash, h1, h2]

theorem assign_length (txs : List Transaction) (bid : String) (ts : Nat) :
    (assign_ranks_within_batch txs bid ts).length = txs.length := by
  simp [assign_ranks_within_batch]

theorem map_base_setBase (txs : List Transaction) :
    (txs.map setBase).map (fun t => t.base_hash) = txs.map effBase := by
  rw [List.map_map]
  exact List.map_congr_left fun a _ => rfl

theorem assign_getElem (txs : List Transaction) (bid : String) (ts : Nat) (i : Nat)
    (hi : i < txs.length) (dflt : Transaction) :
    ((assign_ranks_within_batch txs bid ts).getD i dflt).base_hash
        = (txs.map effBase).getD i ""
    ∧ ((assign_ranks_within_batch txs bid ts).getD i dflt).rank_within_batch
        = some (((txs.map effBase).take i).countP
              (fun x => x == (txs.map effBase).getD i "") + 1)
    ∧ ((assign_ranks_within_batch txs bid ts).getD i dflt).import_timestamp = some ts
    ∧ ((assign_ranks_within_batch txs bid ts).getD i dflt).import_batch_id = some bid := by
  have hlen : (assign_ranks_within_batch txs bid ts).length = txs.length :=
    assign_length txs bid ts
  have hi2 : i < (assign_ranks_within_batch txs bid ts).length := by omega
  have hi3 : i < (txs.map setBase).length := by
    rw [List.length_map]; exact hi
  have hsl : ((txs.map setBase).map (fun t => t.base_hash)).length = txs.length := by
    rw [List.length_map, List.length_map]
  have hgd : (assign_ranks_within_batch txs bid ts).getD i dflt
      = (assign_ranks_within_batch txs bid ts)[i] :=
    List.getD_eq_getElem _ dflt hi2
  have hval : (assign_ranks_within_batch txs bid ts)[i]
      = Transaction.generate_full_hash
          { (txs.map setBase)[i] with
            rank_within_batch :=
              some (rankOf (groupIndices ((txs.map setBase).map (fun t => t.base_hash))) i),
            import_batch_id := some bid,
            import_timestamp := some ts } := by
    simp only [assign_ranks_within_batch]
    rw [List.getElem_mapIdx]
  obtain ⟨f1, f2, f3, f4, _, _⟩ := gfh_fields
    { (txs.map setBase)[i] with
      rank_within_batch :=
        some (rankOf (groupIndices ((txs.map setBase).map (fun t => t.base_hash))) i),
      import_batch_id := some bid,
      import_timestamp := some ts }
  have hrank : rankOf (groupIndices ((txs.map setBase).map (fun t => t.base_hash))) i
      = ((txs.map effBase).take i).countP
          (fun x => x == (txs.map effBase).getD i "") + 1 := by
    rw [rankOf_spec _ i (by rw [hsl]; exact hi), map_base_setBase]
  have hbase : (txs.map setBase)[i].base_hash = (txs.map effBase).getD i "" := by
    rw [List.getD_eq_getElem _ _ (by rw [List.length_map]; exact hi)]
    rw [List.getElem_map, List.getElem_map]
    rfl
  refine ⟨?_, ?_, ?_, ?_⟩
  · rw [hgd, hval, f4, ← hbase]
  · rw [hgd, hval, f1, hrank]
  · rw [hgd, hval, f3]
  · rw [hgd, hval, f2]

theorem assign_map_base (txs : List Transaction) (bid : String) (ts : Nat) :
    (assign_ranks_within_batch txs bid ts).map (fun t => t.base_hash) = txs.map effBase := by
  apply List.ext_getElem
  · rw [List.length_map, assign_length, List.length_map]
  · intro i h1 h2
    rw [List.getElem_map]
    have hi : i < txs.length := by
      rw [List.length_map, assign_length] at h1; exact h1
    have hib : i < (assign_ranks_within_batch txs bid ts).length := by
      rw [assign_length]; exact hi
    have := (assign_getElem txs bid ts i hi ((assign_ranks_within_batch txs bid ts)[i])).1
    rw [List.getD_eq_getElem _ _ hib] at this
    rw [this, List.getD_eq_getElem _ _ (by rw [List.length_map]; exact hi)]

theorem assign_mem (txs : List Transaction) (bid : String) (ts : Nat) (t2 : Transaction)
    (h : t2 ∈ assign_ranks_within_batch txs bid ts) :
    t2.import_timestamp = some ts
    ∧ ∃ i, i < txs.length ∧ t2.base_hash = (txs.map effBase).getD i ""
        ∧ t2.rank_within_batch
            = some (((txs.map effBase).take i).countP
                (fun x => x == (txs.map effBase).getD i "") + 1) := by
  obtain ⟨i, hi, heq⟩ := List.mem_iff_getElem.mp h
  have hi2 : i < txs.length := by rw [assign_length] at hi; exact hi
  have hgd : (assign_ranks_within_batch txs bid ts).getD i t2 = t2 := by
    rw [List.getD_eq_getElem _ _ hi]; exact heq
  obtain ⟨f1, f2, f3, _⟩ := assign_getElem txs bid ts i hi2 t2
  rw [hgd] at f1 f2 f3
  exact ⟨f3, i, hi2, f1, f2⟩

theorem hexChars_len_aux (l : List Nat) :
    (l.foldr (fun b acc => MD5.byteHex b ++ acc) []).length = 2 * l.length := by
  induction l with
  | nil => simp
  | cons b l ih =>
    simp only [List.foldr_cons, List.length_append, ih, List.length_cons]
    have hb : (MD5.byteHex b).length = 2 := rfl
    omega

theorem stBytes_length (f : MD5.St) : (MD5.stBytes f).length = 16 := rfl

theorem md5bytes_length (msg : List Nat) : (MD5.md5bytes msg).length = 16 := by
  unfold MD5.md5bytes
  exact stBytes_length _

theorem hexChars_length (s : String) : (MD5.hexChars s).length = 32 := by
  unfold MD5.hexChars
  rw [hexChars_len_aux, md5bytes_length]

theorem md5hexTrunc_length (s : String) (n : Nat) (hn : n ≤ 32) :
    (MD5.md5hexTrunc s n).length = n := by
  show ((MD5.hexChars s).take n).length = n
  rw [List.length_take, hexChars_length]
  omega

theorem create_base_hash_len (dv : DateVal) (a b c : String) :
    (Transaction.create_base_hash dv a b c).length = 12 := by
  unfold Transaction.create_base_hash
  exact md5hexTrunc_length _ 12 (by omega)

theorem create_base_hash_ne (dv : DateVal) (a b c : String) :
    Transaction.create_base_hash dv a b c ≠ "" := by
  intro h
  have hlen := congrArg String.length h
  rw [create_base_hash_len] at hlen
  simp at hlen

theorem setBase_pos (t : Transaction) (hb : (t.base_hash == "") = true) :
    setBase t = { t with base_hash :=
      Transaction.create_base_hash (.d t.date) t.description t.amount t.source } := by
  unfold setBase
  rw [if_pos hb]

theorem setBase_neg (t : Transaction) (hb : (t.base_hash == "") = false) :
    setBase t = t := by
  unfold setBase
  rw [if_neg]
  rw [hb]
  exact Bool.false_ne_true

theorem effBase_ne (t : Transaction) : effBase t ≠ "" := by
  by_cases hb : (t.base_hash == "") = true
  · have h1 : effBase t
        = Transaction.create_base_hash (.d t.date) t.description t.amount t.source := by
      unfold effBase
      rw [setBase_pos t hb]
    rw [h1]
    exact create_base_hash_ne _ _ _ _
  · have hb2 : (t.base_hash == "") = false := by
      rcases Bool.eq_false_or_eq_true (t.base_hash == "") with h | h
      · exact absurd h hb
      · exact h
    have h1 : effBase t = t.base_hash := by
      unfold effBase
      rw [setBase_neg t hb2]
    rw [h1]
    intro hh
    rw [hh] at hb2
    simp at hb2

theorem countP_cover (hs : List String) (h : String) (r : Nat) (h1 : 1 ≤ r)
    (h2 : r ≤ hs.countP (fun x => x == h)) :
    ∃ i, i < hs.length ∧ hs.getD i "" = h
      ∧ ((hs.take i).countP (fun x => x == h)) + 1 = r := by
  induction hs generalizing r with
  | nil => simp at h2; omega
  | cons a tl ih =>
    rw [List.countP_cons] at h2
    by_cases ha : (a == h) = true
    · rw [if_pos ha] at h2
      rcases Nat.lt_or_ge r 2 with hr | hr
      · have : r = 1 := by omega
        subst this
        exact ⟨0, by simp, eq_of_beq ha, by simp⟩
      · obtain ⟨i, hi, hhi, hcnt⟩ := ih (r - 1) (by omega) (by omega)
        refine ⟨i + 1, by simpa using hi, hhi, ?_⟩
        rw [List.take_succ_cons, List.countP_cons, if_pos ha]
        omega
    · rw [if_neg ha] at h2
      obtain ⟨i, hi, hhi, hcnt⟩ := ih r h1 (by omega)
      refine ⟨i + 1, by simpa using hi, hhi, ?_⟩
      rw [List.take_succ_cons, List.countP_cons, if_neg ha]
      omega

theorem countP_take_lt (hs : List String) (i : Nat) (hi : i < hs.length) :
    ((hs.take i).countP (fun x => x == hs.getD i "")) + 1
      ≤ hs.countP (fun x => x == hs.getD i "") := by
  have hsplit : (hs.take i).countP (fun x => x == hs.getD i "")
        + (hs.drop i).countP (fun x => x == hs.getD i "")
      = hs.countP (fun x => x == hs.getD i "") := by
    rw [← List.countP_append, List.take_append_drop]
  rw [← hsplit]
  rw [List.drop_eq_getElem_cons hi, List.countP_cons]
  have hb : (hs[i] == hs.getD i "") = true := by
    rw [List.getD_eq_getElem hs "" hi]
    exact beq_self_eq_true _
  rw [if_pos hb]
  omega

end TransactionRepository

namespace TransactionRepository

theorem save_one_dup (st : SaveState) (t : Transaction)
    (h : is_duplicate st.store t = true) :
    save_one st t = { st with duplicate_hashes := st.duplicate_hashes ++ [t.base_hash] } := by
  unfold save_one
  rw [if_pos h]

theorem save_one_viol (st : SaveState) (t : Transaction)
    (h1 : is_duplicate st.store t = false)
    (h2 : (st.store.any (fun x => x.transaction_hash == t.transaction_hash)) = true) :
    save_one st t = { st with duplicate_hashes := st.duplicate_hashes ++ [t.base_hash] } := by
  unfold save_one
  rw [if_neg (by rw [h1]; exact Bool.false_ne_true), if_pos h2]

theorem save_one_insert (st : SaveState) (t : Transaction)
    (h1 : is_duplicate st.store t = false)
    (h2 : (st.store.any (fun x => x.transaction_hash == t.transaction_hash)) = false) :
    save_one st t = { st with
                        store := st.store ++ [t],
                        records_added := st.records_added + 1,
                        affected_data := addAffected st.affected_data t.month_str t.category } := by
  unfold save_one
  rw [if_neg (by rw [h1]; exact Bool.false_ne_true),
      if_neg (by rw [h2]; exact Bool.false_ne_true)]

theorem save_one_added_le (st : SaveState) (t : Transaction) :
    (save_one st t).records_added ≤ st.records_added + 1 := by
  by_cases h1 : is_duplicate st.store t = true
  · rw [save_one_dup st t h1]
    exact Nat.le_succ _
  · have h1f := Bool.eq_false_iff.mpr h1
    by_cases h2 : (st.store.any (fun x => x.transaction_hash == t.transaction_hash)) = true
    · rw [save_one_viol st t h1f h2]
      exact Nat.le_succ _
    · rw [save_one_insert st t h1f (Bool.eq_false_iff.mpr h2)]

theorem saveFold_added_le (l : List Transaction) (st : SaveState) :
    (l.foldl save_one st).records_added ≤ st.records_added + l.length := by
  induction l generalizing st with
  | nil => simp
  | cons x xs ih =>
    have h1 := save_one_added_le st x
    have h2 := ih (save_one st x)
    simp only [List.foldl_cons, List.length_cons]
    omega

theorem saveFold_all_inserted (l : List Transaction) (st : SaveState)
    (h : (l.foldl save_one st).records_added = st.records_added + l.length) :
    (l.foldl save_one st).store = st.store ++ l := by
  induction l generalizing st with
  | nil => simp
  | cons x xs ih =>
    simp only [List.foldl_cons, List.length_cons] at h ⊢
    by_cases h1 : is_duplicate st.store x = true
    · exfalso
      rw [save_one_dup st x h1] at h
      have hle := saveFold_added_le xs
        { st with duplicate_hashes := st.duplicate_hashes ++ [x.base_hash] }
      have hrec : ({ st with duplicate_hashes := st.duplicate_hashes ++ [x.base_hash] }
          : SaveState).records_added = st.records_added := rfl
      omega
    · have h1f := Bool.eq_false_iff.mpr h1
      by_cases h2 : (st.store.any (fun y => y.transaction_hash == x.transaction_hash)) = true
      · exfalso
        rw [save_one_viol st x h1f h2] at h
        have hle := saveFold_added_le xs
          { st with duplicate_hashes := st.duplicate_hashes ++ [x.base_hash] }
        have hrec : ({ st with duplicate_hashes := st.duplicate_hashes ++ [x.base_hash] }
            : SaveState).records_added = st.records_added := rfl
        omega
      · have h2f := Bool.eq_false_iff.mpr h2
        rw [save_one_insert st x h1f h2f] at h ⊢
        have hrec : ({ st with
                        store := st.store ++ [x],
                        records_added := st.records_added + 1,
                        affected_data := addAffected st.affected_data x.month_str x.category }
            : SaveState).records_added = st.records_added + 1 := rfl
        have := ih { st with
                      store := st.store ++ [x],
                      records_added := st.records_added + 1,
                      affected_data := addAffected st.affected_data x.month_str x.category }
          (by rw [hrec]; omega)
        rw [this]
        simp [List.append_assoc]

theorem saveFold_all_dup (l : List Transaction) (store0 : List Transaction)
    (n : Nat) (a : List (String × List String)) (d : List String)
    (hdup : ∀ t ∈ l, is_duplicate store0 t = true) :
    l.foldl save_one ⟨store0, n, a, d⟩ = ⟨store0, n, a, d ++ l.map (fun t => t.base_hash)⟩ := by
  induction l generalizing d with
  | nil => simp
  | cons x xs ih =>
    simp only [List.foldl_cons]
    rw [save_one_dup ⟨store0, n, a, d⟩ x (hdup x (List.mem_cons_self _ _))]
    have hst : ({ (⟨store0, n, a, d⟩ : SaveState) with
        duplicate_hashes := d ++ [x.base_hash] } : SaveState)
        = ⟨store0, n, a, d ++ [x.base_hash]⟩ := rfl
    rw [hst, ih (d ++ [x.base_hash]) (fun t ht => hdup t (List.mem_cons_of_mem _ ht))]
    simp [List.append_assoc]

end TransactionRepository

namespace TransactionRepository

/-- Every row of a freshly ranked batch is flagged duplicate against a store
holding a fully accepted earlier ranking of a permutation of the same rows
under a different import timestamp. -/
theorem reupload_all_dup (txs txs2 : List Transaction) (bid1 bid2 : String)
    (ts1 ts2 : Nat) (hts : ts1 ≠ ts2) (hperm : txs2.Perm txs) (t2 : Transaction)
    (ht2 : t2 ∈ assign_ranks_within_batch txs2 bid2 ts2) :
    is_duplicate (assign_ranks_within_batch txs bid1 ts1) t2 = true := by
  obtain ⟨hts2eq, i, hi, hbase, hrank⟩ := assign_mem txs2 bid2 ts2 t2 ht2
  have hilen : i < (txs2.map effBase).length := by rw [List.length_map]; exact hi
  have hhne : t2.base_hash ≠ "" := by
    rw [hbase, List.getD_eq_getElem _ _ hilen, List.getElem_map]
    exact effBase_ne _
  have hcnt2 : ((txs2.map effBase).take i).countP
        (fun x => x == (txs2.map effBase).getD i "") + 1
      ≤ (txs2.map effBase).countP (fun x => x == (txs2.map effBase).getD i "") :=
    countP_take_lt _ i hilen
  have hpermmap : (txs2.map effBase).Perm (txs.map effBase) := hperm.map _
  have hcnt1 : ((txs2.map effBase).take i).countP
        (fun x => x == (txs2.map effBase).getD i "") + 1
      ≤ (txs.map effBase).countP (fun x => x == (txs2.map effBase).getD i "") := by
    rw [← hpermmap.countP_eq]
    exact hcnt2
  obtain ⟨j, hj, hjh, hjcnt⟩ := countP_cover (txs.map effBase)
    ((txs2.map effBase).getD i "")
    (((txs2.map effBase).take i).countP (fun x => x == (txs2.map effBase).getD i "") + 1)
    (by omega) hcnt1
  have hjt : j < txs.length := by rw [List.length_map] at hj; exact hj
  obtain ⟨g1, g2, g3, _⟩ := assign_getElem txs bid1 ts1 j hjt t2
  have hj1 : ((assign_ranks_within_batch txs bid1 ts1).getD j t2).base_hash = t2.base_hash := by
    rw [g1, hjh, hbase]
  have hj2 : ((assign_ranks_within_batch txs bid1 ts1).getD j t2).rank_within_batch
      = t2.rank_within_batch := by
    rw [g2, hrank]
    congr 1
    rw [hjh]
    omega
  have hjlen : j < (assign_ranks_within_batch txs bid1 ts1).length := by
    rw [assign_length]; exact hjt
  have hjmem : (assign_ranks_within_batch txs bid1 ts1).getD j t2
      ∈ assign_ranks_within_batch txs bid1 ts1 := by
    rw [List.getD_eq_getElem _ _ hjlen]
    exact List.getElem_mem hjlen
  have hguard : (t2.base_hash == "" || t2.rank_within_batch.getD 0 == 0) = false := by
    have hb1 : (t2.base_hash == "") = false := beq_eq_false_iff_ne.mpr hhne
    have hb2 : (t2.rank_within_batch.getD 0 == 0) = false := by
      rw [hrank, Option.getD_some]
      simp
    rw [hb1, hb2]
    rfl
  have hrank0 : t2.rank_within_batch.getD 0
      = ((txs2.map effBase).take i).countP (fun x => x == (txs2.map effBase).getD i "") + 1 := by
    rw [hrank, Option.getD_some]
  unfold is_duplicate
  rw [hguard]
  simp only [Bool.false_eq_true, if_false]
  cases hfind : find_by_base_hash_and_rank (assign_ranks_within_batch txs bid1 ts1)
      t2.base_hash (t2.rank_within_batch.getD 0) with
  | none =>
    exfalso
    have hnone := List.find?_eq_none.mp hfind _ hjmem
    apply hnone
    rw [hj1, hj2, hrank0, hrank]
    simp
  | some e =>
    have hemem := List.mem_of_find?_eq_some hfind
    obtain ⟨hets, _⟩ := assign_mem txs bid1 ts1 e hemem
    show (e.import_timestamp != t2.import_timestamp) = true
    rw [hets, hts2eq]
    simp [hts]

end TransactionRepository


/-- C3: submitting the identical multiset of rows a second time, as a new
batch with a different import timestamp and batch id, after a first
save_many that accepted every row into an empty table, accepts nothing: the
second call returns accepted_count = 0, an empty affected-scope map, and
reports every row (its base hash, in batch order) in the duplicate list. -/
theorem c3_idempotent_reupload (txs txs2 : List Transaction) (bid1 bid2 : String)
    (ts1 ts2 : Nat) (hts : ts1 ≠ ts2) (hperm : txs2.Perm txs)
    (hall : (TransactionRepository.save_many [] txs bid1 ts1).records_added = txs.length) :
    (TransactionRepository.save_many
        (TransactionRepository.save_many [] txs bid1 ts1).store txs2 bid2 ts2).records_added = 0
    ∧ (TransactionRepository.save_many
        (TransactionRepository.save_many [] txs bid1 ts1).store txs2 bid2 ts2).affected_data = []
    ∧ (TransactionRepository.save_many
        (TransactionRepository.save_many [] txs bid1 ts1).store txs2 bid2 ts2).duplicate_hashes
        = txs2.map TransactionRepository.effBase := by
  by_cases hem2 : txs2.isEmpty = true
  · have h2nil := List.isEmpty_iff.mp hem2
    subst h2nil
    simp [TransactionRepository.save_many]
  · have hem2f : txs2.isEmpty = false := Bool.eq_false_iff.mpr hem2
    have hem1f : txs.isEmpty = false := by
      rcases htxs : txs with _ | ⟨a, l⟩
      · exfalso
        rw [htxs] at hperm
        have h2nil := List.Perm.eq_nil hperm
        rw [h2nil] at hem2f
        simp at hem2f
      · rfl
    have hsm1 : TransactionRepository.save_many [] txs bid1 ts1
        = (TransactionRepository.assign_ranks_within_batch txs bid1 ts1).foldl
            TransactionRepository.save_one ⟨[], 0, [], []⟩ := by
      simp only [TransactionRepository.save_many, hem1f, Bool.false_eq_true, if_false]
    have hrec : ((TransactionRepository.assign_ranks_within_batch txs bid1 ts1).foldl
          TransactionRepository.save_one ⟨[], 0, [], []⟩).records_added
        = (⟨[], 0, [], []⟩ : TransactionRepository.SaveState).records_added
          + (TransactionRepository.assign_ranks_within_batch txs bid1 ts1).length := by
      rw [hsm1] at hall
      rw [hall, TransactionRepository.assign_length]
      simp
    have hstore1 : (TransactionRepository.save_many [] txs bid1 ts1).store
        = TransactionRepository.assign_ranks_within_batch txs bid1 ts1 := by
      rw [hsm1]
      have := TransactionRepository.saveFold_all_inserted _ _ hrec
      simpa using this
    rw [hstore1]
    have hsm2 : TransactionRepository.save_many
        (TransactionRepository.assign_ranks_within_batch txs bid1 ts1) txs2 bid2 ts2
        = (TransactionRepository.assign_ranks_within_batch txs2 bid2 ts2).foldl
            TransactionRepository.save_one
            ⟨TransactionRepository.assign_ranks_within_batch txs bid1 ts1, 0, [], []⟩ := by
      simp only [TransactionRepository.save_many, hem2f, Bool.false_eq_true, if_false]
    rw [hsm2]
    rw [TransactionRepository.saveFold_all_dup _ _ 0 [] []
      (fun t2 ht2 =>
        TransactionRepository.reupload_all_dup txs txs2 bid1 bid2 ts1 ts2 hts hperm t2 ht2)]
    refine ⟨rfl, rfl, ?_⟩
    show [] ++ (TransactionRepository.assign_ranks_within_batch txs2 bid2 ts2).map
        (fun t => t.base_hash) = txs2.map TransactionRepository.effBase
    rw [List.nil_append, TransactionRepository.assign_map_base]

/-- C3 (witness): a two-row batch accepted in full, then resubmitted in
reversed order under a new timestamp and batch id: nothing is accepted, no
scope is touched, both rows are reported duplicates. -/
theorem c3_idempotent_reupload_witness :
    (1 : Nat) ≠ 2
    ∧ c3_txs2.Perm c3_txs
    ∧ (TransactionRepository.save_many [] c3_txs "batch1" 1).records_added = c3_txs.length
    ∧ ((TransactionRepository.save_many
          (TransactionRepository.save_many [] c3_txs "batch1" 1).store
          c3_txs2 "batch2" 2).records_added = 0
      ∧ (TransactionRepository.save_many
          (TransactionRepository.save_many [] c3_txs "batch1" 1).store
          c3_txs2 "batch2" 2).affected_data = []
      ∧ (TransactionRepository.save_many
          (TransactionRepository.save_many [] c3_txs "batch1" 1).store
          c3_txs2 "batch2" 2).duplicate_hashes = c3_txs2.map TransactionRepository.effBase) :=
  ⟨by decide, List.Perm.swap _ _ _, by decide,
    c3_idempotent_reupload c3_txs c3_txs2 "batch1" "batch2" 1 2 (by decide)
      (List.Perm.swap _ _ _) (by decide)⟩


/-- C7: assign_ranks_within_batch keeps the batch order and length, and gives
row i the rank 1 + (number of earlier rows in the batch with the same
effective base hash) — that is, ranks 1, 2, 3, … within each base_hash
partition in first-seen order — while stamping every row with the one batch
id and the one import timestamp of the upload. -/
theorem c7_rank_assignment (txs : List Transaction) (import_batch_id : String)
    (import_timestamp : Nat) (dflt : Transaction) :
    (TransactionRepository.assign_ranks_within_batch txs import_batch_id
        import_timestamp).length = txs.length
    ∧ ∀ i, i < txs.length →
        ((TransactionRepository.assign_ranks_within_batch txs import_batch_id
              import_timestamp).getD i dflt).base_hash
            = (txs.map TransactionRepository.effBase).getD i ""
        ∧ ((TransactionRepository.assign_ranks_within_batch txs import_batch_id
              import_timestamp).getD i dflt).rank_within_batch
            = some (((txs.map TransactionRepository.effBase).take i).countP
                  (fun x => x == (txs.map TransactionRepository.effBase).getD i "") + 1)
        ∧ ((TransactionRepository.assign_ranks_within_batch txs import_batch_id
              import_timestamp).getD i dflt).import_timestamp = some import_timestamp
        ∧ ((TransactionRepository.assign_ranks_within_batch txs import_batch_id
              import_timestamp).getD i dflt).import_batch_id = some import_batch_id :=
  ⟨TransactionRepository.assign_length txs import_batch_id import_timestamp,
    fun i hi => TransactionRepository.assign_getElem txs import_batch_id import_timestamp
      i hi dflt⟩

/-- C7 (witness): a batch holding the same row at positions 0 and 2 — the
repeats receive ranks 1 and 2, and all three rows carry the batch id and
timestamp. -/
theorem c7_rank_assignment_witness :
    (2 : Nat) < c7_txs.length
    ∧ (((TransactionRepository.assign_ranks_within_batch c7_txs "batch9" 77).getD 2
          c7_dflt).base_hash
        = (c7_txs.map TransactionRepository.effBase).getD 2 ""
      ∧ ((TransactionRepository.assign_ranks_within_batch c7_txs "batch9" 77).getD 2
          c7_dflt).rank_within_batch
        = some (((c7_txs.map TransactionRepository.effBase).take 2).countP
              (fun x => x == (c7_txs.map TransactionRepository.effBase).getD 2 "") + 1)
      ∧ ((TransactionRepository.assign_ranks_within_batch c7_txs "batch9" 77).getD 2
          c7_dflt).import_timestamp = some 77
      ∧ ((TransactionRepository.assign_ranks_within_batch c7_txs "batch9" 77).getD 2
          c7_dflt).import_batch_id = some "batch9")
    ∧ ((TransactionRepository.assign_ranks_within_batch c7_txs "batch9" 77).getD 2
          c7_dflt).rank_within_batch = some 2 :=
  ⟨by decide, (c7_rank_assignment c7_txs "batch9" 77 c7_dflt).2 2 (by decide), by decide⟩
